import Mathlib

/-
Verification of the date-interval overlap validator and timeline/report
aggregators of the HR employee-records backend (backend/hackathon).

The embedding follows the Python source:
  * `Date` models `datetime.date` as a year/month/day triple ordered
    lexicographically, exactly as Python compares dates; `dateMax` models
    `datetime.date.max` (9999-12-31).
  * `EmpCTCRow` models a row of `EmpCTCMasterMirror` (models.py), keeping the
    fields the views read: `emp_ctc_id`, `start_of_ctc`, `end_of_ctc`,
    `ctc_amt`.  `ctc_amt` is a `DecimalField(12, 2)`, embedded as an exact
    rational.
  * `EmpMasterMirror` models the `emp_master` mirror row (models.py), keeping
    `start_date` / `end_date`.
  * The functions below each embed one view or model method, named in their
    doc comments with the file and lines they come from.
-/

namespace HRBackend

/-- Date models Python `datetime.date`: a year/month/day triple compared
lexicographically. -/
structure Date where
  year : Nat
  month : Nat
  day : Nat
deriving DecidableEq, Repr

/-- dateLE a b models Python `a <= b` on dates: lexicographic comparison of
(year, month, day). -/
def dateLE (a b : Date) : Prop :=
  a.year < b.year ∨
    (a.year = b.year ∧ (a.month < b.month ∨ (a.month = b.month ∧ a.day ≤ b.day)))

/-- dateLT a b models Python `a < b` on dates. -/
def dateLT (a b : Date) : Prop :=
  a.year < b.year ∨
    (a.year = b.year ∧ (a.month < b.month ∨ (a.month = b.month ∧ a.day < b.day)))

instance (a b : Date) : Decidable (dateLE a b) := by
  unfold dateLE
  exact inferInstance

instance (a b : Date) : Decidable (dateLT a b) := by
  unfold dateLT
  exact inferInstance

theorem dateLE_refl (a : Date) : dateLE a a := by
  unfold dateLE
  omega

theorem dateLE_trans {a b c : Date} (h1 : dateLE a b) (h2 : dateLE b c) : dateLE a c := by
  unfold dateLE at h1 h2 ⊢
  omega

theorem dateLE_total (a b : Date) : dateLE a b ∨ dateLE b a := by
  unfold dateLE
  omega

theorem dateLT_or_ge (a b : Date) : dateLT a b ∨ dateLE b a := by
  unfold dateLT dateLE
  omega

theorem not_dateLT_of_dateLE {a b : Date} (h : dateLE a b) : ¬ dateLT b a := by
  unfold dateLE at h
  unfold dateLT
  omega

/-- dateMax models Python `datetime.date.max` = 9999-12-31, the maximum
representable date. -/
def dateMax : Date := ⟨9999, 12, 31⟩

/-- orDateMax e models the Python idiom `e or date.max` applied to an optional
end date (views.py lines 915 and 918, models.py lines 223 and 225): an absent
end is treated as the maximum representable date. -/
def orDateMax (e : Option Date) : Date :=
  match e with
  | some d => d
  | none => dateMax

/-- EmpCTCRow models one row of the `emp_ctc_master` mirror table
(models.py `EmpCTCMasterMirror`), restricted to the fields the role-change
and report views read: the autoincrement primary key `emp_ctc_id` (creation
order), the interval `start_of_ctc` / `end_of_ctc`, and the decimal amount
`ctc_amt`. -/
structure EmpCTCRow where
  emp_ctc_id : Nat
  start_of_ctc : Date
  end_of_ctc : Option Date
  ctc_amt : ℚ
deriving DecidableEq, Repr

/-- ValidationResult names the two outcomes of the overlap validator:
`Conflict` corresponds to the view answering HTTP 400 "Role change dates
overlap with an existing record."; `NoConflict` to proceeding with the
insert. -/
inductive ValidationResult where
  | NoConflict
  | Conflict
deriving DecidableEq, Repr

/-- overlapConflictLoop embeds the `for old in existing_rows` loop of
`ApiEmployeeRoleChangeView.post` (views.py lines 916-920): it returns true as
soon as some existing row satisfies
`old_start <= new_end and new_start <= old_end`, where `old_end` is
`old.end_of_ctc or date.max`, and false when the loop falls through.
`newEnd` is the already-computed `parsed_to or date.max` (line 915). -/
def overlapConflictLoop (newStart newEnd : Date) : List EmpCTCRow → Bool
  | [] => false
  | old :: rest =>
    if dateLE old.start_of_ctc newEnd ∧ dateLE newStart (orDateMax old.end_of_ctc) then
      true
    else
      overlapConflictLoop newStart newEnd rest

/-- validateInterval is the overlap validator of
`ApiEmployeeRoleChangeView.post` (views.py lines 913-920) as a two-valued
function: candidate interval `[parsedFrom, parsedTo]` (absent `parsedTo`
meaning open-ended) against the owner's existing rows. -/
def validateInterval (parsedFrom : Date) (parsedTo : Option Date)
    (existing : List EmpCTCRow) : ValidationResult :=
  if overlapConflictLoop parsedFrom (orDateMax parsedTo) existing then
    ValidationResult.Conflict
  else
    ValidationResult.NoConflict

theorem overlapConflictLoop_iff (newStart newEnd : Date) (existing : List EmpCTCRow) :
    overlapConflictLoop newStart newEnd existing = true ↔
      ∃ old ∈ existing,
        dateLE old.start_of_ctc newEnd ∧ dateLE newStart (orDateMax old.end_of_ctc) := by
  induction existing with
  | nil => simp [overlapConflictLoop]
  | cons old rest ih =>
    by_cases h : dateLE old.start_of_ctc newEnd ∧ dateLE newStart (orDateMax old.end_of_ctc)
    · simp [overlapConflictLoop, h]
    · simp only [overlapConflictLoop, if_neg h, ih, List.mem_cons]
      constructor
      · rintro ⟨o, ho, hc⟩
        exact ⟨o, Or.inr ho, hc⟩
      · rintro ⟨o, ho | ho, hc⟩
        · exact absurd (ho ▸ hc) h
        · exact ⟨o, ho, hc⟩

/-- C1: the overlap validator returns `Conflict` iff some existing interval
`[s2, e2]` satisfies `s1 <= e2 AND s2 <= e1` against the candidate
`[s1, e1]`, absent ends on either side standing for the maximum representable
date; when no existing interval satisfies this it returns `NoConflict`
(views.py lines 911-920). -/
theorem validateInterval_conflict_iff (s1 : Date) (e1 : Option Date)
    (existing : List EmpCTCRow) :
    (validateInterval s1 e1 existing = ValidationResult.Conflict ↔
      ∃ old ∈ existing,
        dateLE s1 (orDateMax old.end_of_ctc) ∧ dateLE old.start_of_ctc (orDateMax e1)) ∧
    (validateInterval s1 e1 existing = ValidationResult.NoConflict ↔
      ¬ ∃ old ∈ existing,
        dateLE s1 (orDateMax old.end_of_ctc) ∧ dateLE old.start_of_ctc (orDateMax e1)) := by
  have hiff : overlapConflictLoop s1 (orDateMax e1) existing = true ↔
      ∃ old ∈ existing,
        dateLE s1 (orDateMax old.end_of_ctc) ∧ dateLE old.start_of_ctc (orDateMax e1) := by
    rw [overlapConflictLoop_iff]
    constructor
    · rintro ⟨o, ho, h1, h2⟩
      exact ⟨o, ho, h2, h1⟩
    · rintro ⟨o, ho, h1, h2⟩
      exact ⟨o, ho, h2, h1⟩
  unfold validateInterval
  by_cases h : overlapConflictLoop s1 (orDateMax e1) existing = true
  · simp [h, hiff.mp h]
  · have hnot : ¬ ∃ old ∈ existing,
        dateLE s1 (orDateMax old.end_of_ctc) ∧ dateLE old.start_of_ctc (orDateMax e1) :=
      fun hc => h (hiff.mpr hc)
    simp [h, hnot]

/-- C3: inclusive touching counts as overlap: whenever one interval's end
equals the other interval's start (in either direction) and both intervals
are well-formed (start not after effective end), the validator reports
`Conflict` (views.py lines 916-920). -/
theorem touching_endpoints_conflict (s1 : Date) (e1 : Option Date)
    (existing : List EmpCTCRow) (old : EmpCTCRow)
    (hmem : old ∈ existing)
    (hcand : dateLE s1 (orDateMax e1))
    (hold : dateLE old.start_of_ctc (orDateMax old.end_of_ctc))
    (htouch : e1 = some old.start_of_ctc ∨ old.end_of_ctc = some s1) :
    validateInterval s1 e1 existing = ValidationResult.Conflict := by
  have hconf : overlapConflictLoop s1 (orDateMax e1) existing = true := by
    apply (overlapConflictLoop_iff s1 (orDateMax e1) existing).mpr
    refine ⟨old, hmem, ?_, ?_⟩
    · rcases htouch with h | h
      · rw [h]
        exact dateLE_refl old.start_of_ctc
      · rw [h] at hold
        exact dateLE_trans hold hcand
    · rcases htouch with h | h
      · rw [h] at hcand
        exact dateLE_trans hcand hold
      · rw [h]
        exact dateLE_refl s1
  simp [validateInterval, hconf]

/-- Witness for C3: existing interval [2024-01-01, 2024-06-30], candidate
[2023-10-01, 2024-01-01] whose end equals the existing row's start:
`Conflict`. -/
theorem touching_endpoints_conflict_witness :
    validateInterval ⟨2023, 10, 1⟩ (some ⟨2024, 1, 1⟩)
      [⟨1, ⟨2024, 1, 1⟩, some ⟨2024, 6, 30⟩, 500000⟩] = ValidationResult.Conflict :=
  touching_endpoints_conflict ⟨2023, 10, 1⟩ (some ⟨2024, 1, 1⟩)
    [⟨1, ⟨2024, 1, 1⟩, some ⟨2024, 6, 30⟩, 500000⟩]
    ⟨1, ⟨2024, 1, 1⟩, some ⟨2024, 6, 30⟩, 500000⟩
    (by simp) (by decide) (by decide) (Or.inl rfl)

/-- C4: a closed interval [2021-03-15, 2023-03-31] followed by an open-ended
interval starting the next day (2023-04-01, no end) does not conflict: the
validator returns `NoConflict` (views.py lines 913-920). -/
theorem adjacent_next_day_no_conflict :
    validateInterval ⟨2023, 4, 1⟩ none
      [⟨1, ⟨2021, 3, 15⟩, some ⟨2023, 3, 31⟩, 500000⟩] = ValidationResult.NoConflict := by
  decide

/-- EmpMasterMirror models one row of the `emp_master` mirror table
(models.py `EmpMasterMirror`), restricted to the fields the exit endpoint and
the joiners/leavers report read: `start_date` (non-nullable) and the optional
`end_date`. -/
structure EmpMasterMirror where
  start_date : Date
  end_date : Option Date
deriving DecidableEq, Repr

/-- monthKey d models `d.strftime` with format year dash month (views.py
lines 1238, 1242, 1249): a calendar-month bucket key, faithfully represented
by the (year, month) pair, on which the format string is injective. -/
def monthKey (d : Date) : Nat × Nat := (d.year, d.month)

/-- ymLE compares two month cursors. The source compares
`date(y1, m1, 1) <= date(y2, m2, 1)` (views.py line 1248); with both day
components fixed to 1 this is the lexicographic order on (year, month). -/
def ymLE (p q : Nat × Nat) : Prop :=
  p.1 < q.1 ∨ (p.1 = q.1 ∧ p.2 ≤ q.2)

instance (p q : Nat × Nat) : Decidable (ymLE p q) := by
  unfold ymLE
  exact inferInstance

/-- monthSucc is the successor month as a pure value: December rolls over to
January of the next year.  It is specification vocabulary for where the
report cursor lands when a step succeeds; the embedding of the source's
cursor step itself is `nextMonth` below, which can fail like the source. -/
def monthSucc (p : Nat × Nat) : Nat × Nat :=
  if p.2 = 12 then (p.1 + 1, 1) else (p.1, p.2 + 1)

/-- nextMonth embeds the cursor step of the report loop (views.py lines
1251-1254): `date(cursor.year + 1, 1, 1)` on a December cursor, otherwise
`date(cursor.year, cursor.month + 1, 1)`.  Python's `date` constructor
validates its arguments (`MINYEAR = 1`, `MAXYEAR = 9999`, month in 1..12)
and raises `ValueError` outside them; `none` models that raise, which is
reachable: a December 9999 cursor steps to year 10000. -/
def nextMonth (p : Nat × Nat) : Option (Nat × Nat) :=
  if p.2 = 12 then
    if 1 ≤ p.1 + 1 ∧ p.1 + 1 ≤ 9999 then some (p.1 + 1, 1) else none
  else
    if 1 ≤ p.2 + 1 ∧ p.2 + 1 ≤ 12 then some (p.1, p.2 + 1) else none

/-- monthIdx linearisation of a (year, month) pair; for month values in 1..12
it orders pairs exactly like `ymLE` and `monthSucc` increments it by one. -/
def monthIdx (p : Nat × Nat) : Nat := p.1 * 12 + p.2

/-- ymValid p states the month component is a calendar month (1..12); every
cursor the report loop builds from a real date satisfies it. -/
def ymValid (p : Nat × Nat) : Prop := 1 ≤ p.2 ∧ p.2 ≤ 12

instance (p : Nat × Nat) : Decidable (ymValid p) := by
  unfold ymValid
  exact inferInstance

/-- monthRangeAux runs the `while cursor <= end_month` loop of
`ApiJoinersLeaversReportView.get` (views.py lines 1248-1254): while the
guard holds, append the current cursor and step; a failing step is the
`ValueError` raised by `date(cursor.year + 1, 1, 1)` past year 9999, and it
aborts the whole computation (`none`), discarding the rows built so far,
exactly as the exception propagates out of the view before the response is
built.  The fuel argument only bounds the number of iterations; `monthRange`
passes `monthIdx last + 1 - monthIdx cur`, which for calendar-month cursors
(month in 1..12, as produced by `date(y, m, 1)`) covers every guard-true
iteration the Python loop performs, so the guard and the step, not the
fuel, decide the outcome on every reachable input (`monthRangeAux_eq` and
`monthRangeAux_none` below). -/
def monthRangeAux : Nat → Nat × Nat → Nat × Nat → Option (List (Nat × Nat))
  | 0, _, _ => some []
  | fuel + 1, cur, last =>
    if ymLE cur last then
      (nextMonth cur).bind fun nxt =>
        (monthRangeAux fuel nxt last).map fun rest => cur :: rest
    else some []

/-- monthRange cur last is the list of month cursors visited by the report
loop, from `cur` while the cursor stays `<=` `last`; `none` when the loop
raises `ValueError` stepping past December 9999. -/
def monthRange (cur last : Nat × Nat) : Option (List (Nat × Nat)) :=
  monthRangeAux (monthIdx last + 1 - monthIdx cur) cur last

theorem ymValid_monthSucc {p : Nat × Nat} (h : ymValid p) : ymValid (monthSucc p) := by
  unfold ymValid monthSucc at *
  split
  · simp
  · simp
    omega

theorem monthIdx_monthSucc (p : Nat × Nat) :
    monthIdx (monthSucc p) = monthIdx p + 1 := by
  unfold monthSucc monthIdx
  split
  · simp
    omega
  · simp
    omega

theorem monthIdx_le_120000 {p : Nat × Nat} (h : ymValid p) (hy : p.1 ≤ 9999) :
    monthIdx p ≤ 120000 := by
  unfold ymValid monthIdx at *
  omega

theorem monthIdx_lt_120000 {p : Nat × Nat} (h : ymValid p) (hy : p.1 ≤ 9999)
    (hne : p ≠ (9999, 12)) : monthIdx p < 120000 := by
  rcases p with ⟨y, m⟩
  have hne2 : ¬ (y = 9999 ∧ m = 12) := by
    intro hc
    exact hne (by rw [hc.1, hc.2])
  unfold ymValid monthIdx at *
  simp only at *
  omega

theorem monthSucc_year_le {p : Nat × Nat} (h : ymValid p) (hy : p.1 ≤ 9999)
    (hne : p ≠ (9999, 12)) : (monthSucc p).1 ≤ 9999 := by
  rcases p with ⟨y, m⟩
  have hne2 : ¬ (y = 9999 ∧ m = 12) := by
    intro hc
    exact hne (by rw [hc.1, hc.2])
  unfold ymValid monthSucc at *
  split
  · simp only at *
    omega
  · simpa using hy

theorem nextMonth_eq_monthSucc {p : Nat × Nat} (h : ymValid p) (hy : p.1 ≤ 9999)
    (hne : p ≠ (9999, 12)) : nextMonth p = some (monthSucc p) := by
  rcases p with ⟨y, m⟩
  have hne2 : ¬ (y = 9999 ∧ m = 12) := by
    intro hc
    exact hne (by rw [hc.1, hc.2])
  unfold ymValid at h
  unfold nextMonth monthSucc
  simp only at *
  by_cases h12 : m = 12
  · subst h12
    rw [if_pos rfl, if_pos rfl, if_pos ⟨by omega, by omega⟩]
  · rw [if_neg h12, if_neg h12, if_pos ⟨by omega, by omega⟩]

theorem nextMonth_at_max : nextMonth (9999, 12) = none := by decide

theorem ymLE_iff_monthIdx {p q : Nat × Nat} (hp : ymValid p) (hq : ymValid q) :
    ymLE p q ↔ monthIdx p ≤ monthIdx q := by
  unfold ymValid ymLE monthIdx at *
  constructor <;> intro h
  · rcases h with h | ⟨h1, h2⟩
    · nlinarith
    · omega
  · by_cases hy : p.1 < q.1
    · exact Or.inl hy
    · right
      constructor <;> nlinarith

theorem ymValid_iterate {p : Nat × Nat} (h : ymValid p) (i : Nat) :
    ymValid (monthSucc^[i] p) := by
  induction i with
  | zero => simpa using h
  | succ n ih =>
    rw [Function.iterate_succ_apply']
    exact ymValid_monthSucc ih

theorem monthIdx_iterate {p : Nat × Nat} (i : Nat) :
    monthIdx (monthSucc^[i] p) = monthIdx p + i := by
  induction i with
  | zero => simp
  | succ n ih =>
    rw [Function.iterate_succ_apply', monthIdx_monthSucc (monthSucc^[n] p), ih]
    omega

theorem monthRangeAux_eq (fuel : Nat) :
    ∀ cur last : Nat × Nat, ymValid cur → cur.1 ≤ 9999 → ymValid last →
      last.1 ≤ 9999 → last ≠ (9999, 12) →
      monthIdx last + 1 - monthIdx cur = fuel →
      monthRangeAux fuel cur last =
        some ((List.range fuel).map (fun i => monthSucc^[i] cur)) := by
  induction fuel with
  | zero =>
    intro cur last _ _ _ _ _ _
    simp [monthRangeAux]
  | succ n ih =>
    intro cur last hc hcy hl hly hlne hf
    have hlidx : monthIdx last < 120000 := monthIdx_lt_120000 hl hly hlne
    have hle : monthIdx cur ≤ monthIdx last := by omega
    have hcne : cur ≠ (9999, 12) := by
      intro hc2
      have h120 : monthIdx cur = 120000 := by
        rw [hc2]
        decide
      omega
    rw [monthRangeAux, if_pos ((ymLE_iff_monthIdx hc hl).mpr hle),
      nextMonth_eq_monthSucc hc hcy hcne]
    simp only [Option.some_bind]
    rw [ih (monthSucc cur) last (ymValid_monthSucc hc) (monthSucc_year_le hc hcy hcne)
      hl hly hlne (by rw [monthIdx_monthSucc cur]; omega)]
    rw [List.range_succ_eq_map]
    simp only [Option.map_some', Option.some.injEq, List.map_cons,
      Function.iterate_zero_apply, List.map_map]
    congr 1

theorem monthRangeAux_none (fuel : Nat) :
    ∀ cur : Nat × Nat, ymValid cur → cur.1 ≤ 9999 →
      monthIdx (9999, 12) + 1 - monthIdx cur = fuel →
      monthRangeAux fuel cur (9999, 12) = none := by
  induction fuel with
  | zero =>
    intro cur hc hcy hf
    exfalso
    have hub := monthIdx_le_120000 hc hcy
    have h120 : monthIdx (9999, 12) = 120000 := by decide
    rw [h120] at hf
    omega
  | succ n ih =>
    intro cur hc hcy hf
    have hub := monthIdx_le_120000 hc hcy
    have h120 : monthIdx (9999, 12) = 120000 := by decide
    have hle : monthIdx cur ≤ monthIdx (9999, 12) := by
      rw [h120]
      exact hub
    rw [monthRangeAux, if_pos ((ymLE_iff_monthIdx hc (by decide)).mpr hle)]
    by_cases hcne : cur = (9999, 12)
    · rw [hcne, nextMonth_at_max]
      rfl
    · rw [nextMonth_eq_monthSucc hc hcy hcne]
      simp only [Option.some_bind]
      rw [ih (monthSucc cur) (ymValid_monthSucc hc) (monthSucc_year_le hc hcy hcne)
        (by
          rw [monthIdx_monthSucc cur, h120]
          rw [h120] at hf
          omega)]
      rfl

theorem monthRange_eq {cur last : Nat × Nat} (hc : ymValid cur) (hcy : cur.1 ≤ 9999)
    (hl : ymValid last) (hly : last.1 ≤ 9999) (hlne : last ≠ (9999, 12)) :
    monthRange cur last =
      some ((List.range (monthIdx last + 1 - monthIdx cur)).map
        (fun i => monthSucc^[i] cur)) :=
  monthRangeAux_eq _ cur last hc hcy hl hly hlne rfl

theorem monthRange_none {cur : Nat × Nat} (hc : ymValid cur) (hcy : cur.1 ≤ 9999) :
    monthRange cur (9999, 12) = none :=
  monthRangeAux_none _ cur hc hcy rfl

/-- joinerKeys lists the month key of every employee whose `start_date` lies
in the inclusive report range: the queryset filter
`start_date__gte=start_date, start_date__lte=end_date` followed by
`strftime` keying (views.py lines 1237-1239). -/
def joinerKeys (emps : List EmpMasterMirror) (startDate endDate : Date) :
    List (Nat × Nat) :=
  (emps.filter fun emp =>
      decide (dateLE startDate emp.start_date) && decide (dateLE emp.start_date endDate)).map
    (fun emp => monthKey emp.start_date)

/-- leaverKeys lists the month key of every employee whose `end_date` is
present and lies in the inclusive report range: the queryset filter
`end_date__isnull=False, end_date__gte=start_date, end_date__lte=end_date`
followed by `strftime` keying (views.py lines 1241-1243). -/
def leaverKeys (emps : List EmpMasterMirror) (startDate endDate : Date) :
    List (Nat × Nat) :=
  emps.filterMap fun emp =>
    match emp.end_date with
    | none => none
    | some d =>
      if dateLE startDate d ∧ dateLE d endDate then some (monthKey d) else none

/-- bumpCount is one `defaultdict(int)` increment: `counts[k] += 1`. -/
def bumpCount (counts : Nat × Nat → Nat) (k : Nat × Nat) : Nat × Nat → Nat :=
  fun k2 => if k2 = k then counts k2 + 1 else counts k2

/-- tallyKeys folds a key list into the `defaultdict(int)` the report builds
(views.py lines 1234-1243); reading the result at a key is
`counts.get(key, 0)`. -/
def tallyKeys (ks : List (Nat × Nat)) : Nat × Nat → Nat :=
  ks.foldl bumpCount (fun _ => 0)

theorem foldl_bumpCount (ks : List (Nat × Nat)) :
    ∀ (f : Nat × Nat → Nat) (k : Nat × Nat),
      ks.foldl bumpCount f k = f k + ks.countP (fun x => decide (x = k)) := by
  induction ks with
  | nil => simp
  | cons a rest ih =>
    intro f k
    rw [List.foldl_cons, ih, List.countP_cons]
    unfold bumpCount
    by_cases h : k = a
    · simp [h]
      omega
    · have h2 : ¬ (a = k) := fun hc => h hc.symm
      simp [h, h2]

theorem tallyKeys_eq_countP (ks : List (Nat × Nat)) (k : Nat × Nat) :
    tallyKeys ks k = ks.countP (fun x => decide (x = k)) := by
  unfold tallyKeys
  rw [foldl_bumpCount]
  omega

/-- MonthRow is one monthly entry of the joiners/leavers report body
(views.py line 1250). -/
structure MonthRow where
  month : Nat × Nat
  joiners : Nat
  leavers : Nat
deriving DecidableEq, Repr

/-- joinersLeaversRows embeds the row-building part of
`ApiJoinersLeaversReportView.get` (views.py lines 1234-1255): tally joiner
and leaver events per month key, then walk the month cursor from the month
of `startDate` through the month of `endDate`, emitting one row per month
with `dict.get(key, 0)` counts; `none` when the cursor walk raises
`ValueError` stepping past December 9999, in which case the view builds no
row list at all. -/
def joinersLeaversRows (emps : List EmpMasterMirror) (startDate endDate : Date) :
    Option (List MonthRow) :=
  (monthRange (monthKey startDate) (monthKey endDate)).map fun ks =>
    ks.map fun k =>
      { month := k
        joiners := tallyKeys (joinerKeys emps startDate endDate) k
        leavers := tallyKeys (leaverKeys emps startDate endDate) k }

/-- ReportResult is the outcome of the joiners/leavers report:
`invalidRange` is the HTTP 400 "end cannot be before start." answer;
`valueError` is the unhandled `ValueError` escaping the view (no response
body is built) when the month walk steps past December 9999. -/
inductive ReportResult where
  | invalidRange
  | valueError
  | ok (monthly : List MonthRow)
deriving DecidableEq, Repr

/-- joinersLeaversReport embeds `ApiJoinersLeaversReportView.get` after date
parsing (views.py lines 1231-1256): the range check `end_date < start_date`
rejects with `invalidRange`; otherwise the monthly rows are produced unless
the month walk raises. -/
def joinersLeaversReport (emps : List EmpMasterMirror) (startDate endDate : Date) :
    ReportResult :=
  if dateLT endDate startDate then ReportResult.invalidRange
  else
    match joinersLeaversRows emps startDate endDate with
    | none => ReportResult.valueError
    | some rows => ReportResult.ok rows

/-- dateValidMonth d states that the month component of a date is a calendar
month; every date parsed by `date.fromisoformat` satisfies it. -/
def dateValidMonth (d : Date) : Prop := 1 ≤ d.month ∧ d.month ≤ 12

instance (d : Date) : Decidable (dateValidMonth d) := by
  unfold dateValidMonth
  exact inferInstance

theorem ymValid_monthKey {d : Date} (h : dateValidMonth d) : ymValid (monthKey d) := h

/-- pyDateValid d states the year and month invariants every Python `date`
object satisfies (`MINYEAR = 1`, `MAXYEAR = 9999`, month in 1..12); day
bounds are omitted because no theorem below reads days other than through
comparisons. -/
def pyDateValid (d : Date) : Prop :=
  1 ≤ d.year ∧ d.year ≤ 9999 ∧ 1 ≤ d.month ∧ d.month ≤ 12

instance (d : Date) : Decidable (pyDateValid d) := by
  unfold pyDateValid
  exact inferInstance

theorem dateValidMonth_of_py {d : Date} (h : pyDateValid d) : dateValidMonth d :=
  ⟨h.2.2.1, h.2.2.2⟩

theorem monthKey_year_le {d : Date} (h : pyDateValid d) : (monthKey d).1 ≤ 9999 :=
  h.2.1

theorem ymLE_monthKey_of_dateLE {a b : Date} (h : dateLE a b) :
    ymLE (monthKey a) (monthKey b) := by
  unfold dateLE at h
  unfold ymLE monthKey
  simp only
  omega

/-- Counterexample to C2: the range 9999-12-01 .. 9999-12-31 is valid
(`range_end >= range_start`, both parseable dates), yet the report loop's
cursor increment `date(cursor.year + 1, 1, 1)` on the December 9999 cursor
raises `ValueError` (Python `MAXYEAR` is 9999) before the response is
built: no monthly output exists at all, so the output does not contain one
entry per calendar month spanned. -/
theorem monthly_rows_december_9999_crash :
    dateLE ⟨9999, 12, 1⟩ ⟨9999, 12, 31⟩
    ∧ joinersLeaversRows [] ⟨9999, 12, 1⟩ ⟨9999, 12, 31⟩ = none
    ∧ joinersLeaversReport [] ⟨9999, 12, 1⟩ ⟨9999, 12, 31⟩ = ReportResult.valueError := by
  decide

/-- C2 as amended: for a valid range `[s, e]` with `s <= e` whose end month
is not December 9999, the monthly report rows are produced and contain
exactly one entry per calendar month from the month of `s` through the
month of `e` inclusive, in chronological ascending order with no month
skipped or duplicated (the i-th row is the i-th month after the month of
`s`), months with no events included; each row carries the number of
in-range start events and the number of in-range end events whose date
falls in that row's month.  When the end month is December 9999 the cursor
walk raises `ValueError` and no output is produced (views.py lines
1234-1256). -/
theorem monthly_rows_cover_range (emps : List EmpMasterMirror) (s e : Date)
    (hs : pyDateValid s) (he : pyDateValid e) (hrange : dateLE s e) :
    (monthKey e = (9999, 12) → joinersLeaversRows emps s e = none)
    ∧ (monthKey e ≠ (9999, 12) →
        (joinersLeaversRows emps s e).isSome = true
        ∧ ∀ rows, joinersLeaversRows emps s e = some rows →
            rows.length = monthIdx (monthKey e) + 1 - monthIdx (monthKey s)
            ∧ monthIdx (monthKey s) ≤ monthIdx (monthKey e)
            ∧ ∀ i, (hi : i < rows.length) →
                monthIdx ((rows.get ⟨i, hi⟩).month) = monthIdx (monthKey s) + i
                ∧ ymValid (rows.get ⟨i, hi⟩).month
                ∧ (rows.get ⟨i, hi⟩).joiners
                    = (joinerKeys emps s e).countP
                        (fun k => decide (k = (rows.get ⟨i, hi⟩).month))
                ∧ (rows.get ⟨i, hi⟩).leavers
                    = (leaverKeys emps s e).countP
                        (fun k => decide (k = (rows.get ⟨i, hi⟩).month))) := by
  have hs2 : ymValid (monthKey s) := ymValid_monthKey (dateValidMonth_of_py hs)
  have he2 : ymValid (monthKey e) := ymValid_monthKey (dateValidMonth_of_py he)
  have hsy : (monthKey s).1 ≤ 9999 := monthKey_year_le hs
  have hey : (monthKey e).1 ≤ 9999 := monthKey_year_le he
  constructor
  · intro hmax
    rw [joinersLeaversRows, hmax, monthRange_none hs2 hsy]
    rfl
  · intro hne
    have hrg := monthRange_eq hs2 hsy he2 hey hne
    have hrows : joinersLeaversRows emps s e
        = some (((List.range (monthIdx (monthKey e) + 1 - monthIdx (monthKey s))).map
            (fun i => monthSucc^[i] (monthKey s))).map fun k =>
              { month := k
                joiners := tallyKeys (joinerKeys emps s e) k
                leavers := tallyKeys (leaverKeys emps s e) k }) := by
      rw [joinersLeaversRows, hrg, Option.map_some']
    refine ⟨by rw [hrows]; rfl, ?_⟩
    intro rows hr
    rw [hrows, Option.some.injEq] at hr
    subst hr
    have hlen : (((List.range (monthIdx (monthKey e) + 1 - monthIdx (monthKey s))).map
        (fun i => monthSucc^[i] (monthKey s))).map fun k =>
          { month := k
            joiners := tallyKeys (joinerKeys emps s e) k
            leavers := tallyKeys (leaverKeys emps s e) k : MonthRow }).length
        = monthIdx (monthKey e) + 1 - monthIdx (monthKey s) := by
      rw [List.length_map, List.length_map, List.length_range]
    refine ⟨hlen, (ymLE_iff_monthIdx hs2 he2).mp (ymLE_monthKey_of_dateLE hrange), ?_⟩
    intro i hi
    have hin : i < monthIdx (monthKey e) + 1 - monthIdx (monthKey s) := hlen ▸ hi
    have hget : (((List.range (monthIdx (monthKey e) + 1 - monthIdx (monthKey s))).map
        (fun i => monthSucc^[i] (monthKey s))).map fun k =>
          { month := k
            joiners := tallyKeys (joinerKeys emps s e) k
            leavers := tallyKeys (leaverKeys emps s e) k : MonthRow }).get ⟨i, hi⟩
        = { month := monthSucc^[i] (monthKey s)
            joiners := tallyKeys (joinerKeys emps s e) (monthSucc^[i] (monthKey s))
            leavers := tallyKeys (leaverKeys emps s e) (monthSucc^[i] (monthKey s)) } := by
      simp [List.get_eq_getElem, hin]
    rw [hget]
    refine ⟨monthIdx_iterate i, ymValid_iterate hs2 i, ?_, ?_⟩
    · exact tallyKeys_eq_countP _ _
    · exact tallyKeys_eq_countP _ _

/-- Witness for the amended C2: range 2025-01-01 .. 2025-03-31 (end month
not December 9999) with one joiner on 2025-01-15 and one leaver on
2025-03-20 produces a row list. -/
theorem monthly_rows_cover_range_witness :
    (joinersLeaversRows
        [⟨⟨2025, 1, 15⟩, none⟩, ⟨⟨2025, 2, 10⟩, some ⟨2025, 3, 20⟩⟩]
        ⟨2025, 1, 1⟩ ⟨2025, 3, 31⟩).isSome = true :=
  ((monthly_rows_cover_range
      [⟨⟨2025, 1, 15⟩, none⟩, ⟨⟨2025, 2, 10⟩, some ⟨2025, 3, 20⟩⟩]
      ⟨2025, 1, 1⟩ ⟨2025, 3, 31⟩ (by decide) (by decide) (by decide)).2 (by decide)).1

/-- C10: joiner events count only when the start date itself lies in the
inclusive report range, symmetrically to leaver events; the months that
appear in the output do not depend on the events at all, so a boundary month
still appears (with count 0) when its only events fall outside the range
(views.py lines 1237-1243 and 1245-1254). -/
theorem events_counted_only_within_range (emps : List EmpMasterMirror)
    (emp : EmpMasterMirror) (s e : Date) :
    ((joinersLeaversRows (emp :: emps) s e).map (fun rows => rows.map (fun r => r.month))
        = (joinersLeaversRows emps s e).map (fun rows => rows.map (fun r => r.month)))
    ∧ (¬ (dateLE s emp.start_date ∧ dateLE emp.start_date e) →
        joinerKeys (emp :: emps) s e = joinerKeys emps s e)
    ∧ (dateLE s emp.start_date ∧ dateLE emp.start_date e →
        joinerKeys (emp :: emps) s e = monthKey emp.start_date :: joinerKeys emps s e)
    ∧ (emp.end_date = none → leaverKeys (emp :: emps) s e = leaverKeys emps s e)
    ∧ (∀ d, emp.end_date = some d → ¬ (dateLE s d ∧ dateLE d e) →
        leaverKeys (emp :: emps) s e = leaverKeys emps s e)
    ∧ (∀ d, emp.end_date = some d → dateLE s d ∧ dateLE d e →
        leaverKeys (emp :: emps) s e = monthKey d :: leaverKeys emps s e) := by
  refine ⟨?_, ?_, ?_, ?_, ?_, ?_⟩
  · cases hmr : monthRange (monthKey s) (monthKey e) with
    | none => simp [joinersLeaversRows, hmr]
    | some ks => simp [joinersLeaversRows, hmr, List.map_map, Function.comp]
  · intro h
    rw [joinerKeys, joinerKeys, List.filter_cons, if_neg (by simpa using h)]
  · intro h
    rw [joinerKeys, joinerKeys, List.filter_cons, if_pos (by simpa using h)]
    simp
  · intro h
    simp [leaverKeys, List.filterMap_cons, h]
  · intro d hd h
    simp [leaverKeys, List.filterMap_cons, hd, h]
  · intro d hd h
    simp [leaverKeys, List.filterMap_cons, hd, h]

/-- Witness for C10: with range 2025-01-10 .. 2025-03-31, an employee who
started 2025-01-05 (inside January but before the range start) contributes
nothing to the joiner tallies. -/
theorem events_counted_only_within_range_witness :
    joinerKeys [⟨⟨2025, 1, 5⟩, none⟩] ⟨2025, 1, 10⟩ ⟨2025, 3, 31⟩
      = joinerKeys [] ⟨2025, 1, 10⟩ ⟨2025, 3, 31⟩ :=
  (events_counted_only_within_range [] ⟨⟨2025, 1, 5⟩, none⟩
      ⟨2025, 1, 10⟩ ⟨2025, 3, 31⟩).2.1 (by decide)

/-- RoleChangeOutcome names the outcomes of the role-change POST handler:
`invalidRange` is the HTTP 400 "effective_to cannot be before
effective_from.", `conflict` the HTTP 400 overlap rejection, `created` the
HTTP 201 insert. -/
inductive RoleChangeOutcome where
  | invalidRange
  | conflict
  | created
deriving DecidableEq, Repr

/-- endBeforeStart models the guard `if parsed_to and parsed_to <
parsed_from` (views.py line 908): a date object is always truthy, so the
guard fires exactly when an end date is present and precedes the start. -/
def endBeforeStart (parsedFrom : Date) (parsedTo : Option Date) : Prop :=
  match parsedTo with
  | some t => dateLT t parsedFrom
  | none => False

instance (parsedFrom : Date) (parsedTo : Option Date) :
    Decidable (endBeforeStart parsedFrom parsedTo) := by
  unfold endBeforeStart
  cases parsedTo <;> exact inferInstance

/-- apiRoleChangePost embeds the date logic and persistence effect of
`ApiEmployeeRoleChangeView.post` (views.py lines 908-933): the invalid-range
guard answers before any overlap checking, the overlap loop answers before
any insert, and only the successful branch appends the new row (the
database autoincrement id is passed in as `nextId`, the parsed
`int(float(annual_ctc))` as `ctcValue`).  The second component is the
owner's row set after the request. -/
def apiRoleChangePost (parsedFrom : Date) (parsedTo : Option Date) (nextId : Nat)
    (ctcValue : ℚ) (existing : List EmpCTCRow) : RoleChangeOutcome × List EmpCTCRow :=
  if endBeforeStart parsedFrom parsedTo then
    (RoleChangeOutcome.invalidRange, existing)
  else if overlapConflictLoop parsedFrom (orDateMax parsedTo) existing then
    (RoleChangeOutcome.conflict, existing)
  else
    (RoleChangeOutcome.created, existing ++ [⟨nextId, parsedFrom, parsedTo, ctcValue⟩])

/-- C5: a candidate whose present end precedes its start is rejected as
`invalidRange` with the stored rows unchanged, whatever the existing set is
(so no overlap checking can influence the answer); a report range whose end
precedes its start is rejected as `invalidRange`; and on either rejected
outcome of the POST handler no record is persisted (views.py lines 908-920
and 1231-1232). -/
theorem invalid_range_rejected_atomically (parsedFrom t : Date) (nextId : Nat)
    (ctcValue : ℚ) (existing : List EmpCTCRow) (emps : List EmpMasterMirror)
    (s e : Date) :
    (dateLT t parsedFrom →
      apiRoleChangePost parsedFrom (some t) nextId ctcValue existing
        = (RoleChangeOutcome.invalidRange, existing))
    ∧ (dateLT e s → joinersLeaversReport emps s e = ReportResult.invalidRange)
    ∧ (∀ out st, apiRoleChangePost parsedFrom (some t) nextId ctcValue existing = (out, st) →
        out = RoleChangeOutcome.invalidRange ∨ out = RoleChangeOutcome.conflict →
        st = existing) := by
  refine ⟨?_, ?_, ?_⟩
  · intro h
    have hg : endBeforeStart parsedFrom (some t) := h
    simp [apiRoleChangePost, hg]
  · intro h
    simp [joinersLeaversReport, h]
  · intro out st heq hbad
    unfold apiRoleChangePost at heq
    split at heq
    · exact (Prod.mk.injEq _ _ _ _ ▸ heq).2.symm ▸ rfl
    · split at heq
      · exact (Prod.mk.injEq _ _ _ _ ▸ heq).2.symm ▸ rfl
      · have hout : out = RoleChangeOutcome.created := ((Prod.mk.injEq _ _ _ _ ▸ heq).1).symm
        rcases hbad with hb | hb <;> rw [hout] at hb <;> exact absurd hb (by decide)

/-- Witness for C5: candidate start 2024-03-01 with end 2024-02-28 is
rejected without touching the (empty) row set, and report range
2025-02-01 .. 2025-01-01 is rejected. -/
theorem invalid_range_rejected_atomically_witness :
    apiRoleChangePost ⟨2024, 3, 1⟩ (some ⟨2024, 2, 28⟩) 1 500000 []
        = (RoleChangeOutcome.invalidRange, [])
    ∧ joinersLeaversReport [] ⟨2025, 2, 1⟩ ⟨2025, 1, 1⟩ = ReportResult.invalidRange :=
  ⟨(invalid_range_rejected_atomically ⟨2024, 3, 1⟩ ⟨2024, 2, 28⟩ 1 500000 []
        [] ⟨2025, 2, 1⟩ ⟨2025, 1, 1⟩).1 (by decide),
    (invalid_range_rejected_atomically ⟨2024, 3, 1⟩ ⟨2024, 2, 28⟩ 1 500000 []
        [] ⟨2025, 2, 1⟩ ⟨2025, 1, 1⟩).2.1 (by decide)⟩

/-- timelineRel a b states that row `a` sorts no later than row `b` under the
queryset ordering `-start_of_ctc, -emp_ctc_id` (views.py lines 871 and 1278):
start date descending, ties broken by the autoincrement creation key
descending (later-created first). -/
def timelineRel (a b : EmpCTCRow) : Prop :=
  dateLT b.start_of_ctc a.start_of_ctc ∨
    (b.start_of_ctc = a.start_of_ctc ∧ b.emp_ctc_id ≤ a.emp_ctc_id)

instance : DecidableRel timelineRel := fun a b => by
  unfold timelineRel
  exact inferInstance

theorem timelineRel_refl (a : EmpCTCRow) : timelineRel a a :=
  Or.inr ⟨rfl, le_refl _⟩

theorem timelineRel_total (a b : EmpCTCRow) : timelineRel a b ∨ timelineRel b a := by
  unfold timelineRel dateLT
  rcases a with ⟨ia, ⟨ya, ma, da⟩, ea, ca⟩
  rcases b with ⟨ib, ⟨yb, mb, db⟩, eb, cb⟩
  simp only [Date.mk.injEq]
  omega

theorem timelineRel_trans (a b c : EmpCTCRow)
    (h1 : timelineRel a b) (h2 : timelineRel b c) : timelineRel a c := by
  unfold timelineRel dateLT at h1 h2 ⊢
  rcases a with ⟨ia, ⟨ya, ma, da⟩, ea, ca⟩
  rcases b with ⟨ib, ⟨yb, mb, db⟩, eb, cb⟩
  rcases c with ⟨ic, ⟨yc, mc, dc⟩, ec, cc⟩
  simp only [Date.mk.injEq] at h1 h2 ⊢
  omega

instance : IsTotal EmpCTCRow timelineRel := ⟨timelineRel_total⟩

instance : IsTrans EmpCTCRow timelineRel := ⟨timelineRel_trans⟩

/-- timelineSorted orders an owner's CTC rows the way
`order_by` with keys `-start_of_ctc` and `-emp_ctc_id` does (views.py line
871): a sort by the total order `timelineRel`. -/
def timelineSorted (rows : List EmpCTCRow) : List EmpCTCRow :=
  List.insertionSort timelineRel rows

/-- C7: the chronological timeline is the input rows reordered (a
permutation) so that every earlier entry has a strictly later start than
every later entry, or the same start and a later creation key; sorting an
already sorted timeline changes nothing, so recomputation on an unchanged
input set yields identical output (views.py lines 868-872). -/
theorem timeline_order_deterministic (rows : List EmpCTCRow) :
    List.Pairwise
      (fun a b => dateLT b.start_of_ctc a.start_of_ctc ∨
        (b.start_of_ctc = a.start_of_ctc ∧ b.emp_ctc_id ≤ a.emp_ctc_id))
      (timelineSorted rows)
    ∧ List.Perm (timelineSorted rows) rows
    ∧ timelineSorted (timelineSorted rows) = timelineSorted rows := by
  have hs : List.Sorted timelineRel (timelineSorted rows) :=
    List.sorted_insertionSort timelineRel rows
  exact ⟨hs, List.perm_insertionSort timelineRel rows,
    List.Sorted.insertionSort_eq hs⟩

/-- latestCTC picks the owner's most recent CTC row:
`order_by` descending then `.first()` (views.py lines 1277-1281). -/
def latestCTC (rows : List EmpCTCRow) : Option EmpCTCRow :=
  (timelineSorted rows).head?

/-- empCTCAmount is `float(latest_ctc.ctc_amt) if latest_ctc else 0.0`
(views.py line 1283), with the decimal amount kept exact (the drift-free
band theorem below covers the float conversion). -/
def empCTCAmount (latest : Option EmpCTCRow) : ℚ :=
  match latest with
  | some r => r.ctc_amt
  | none => 0

/-- SalaryBand names the three fixed report bands (views.py lines
1266-1270). -/
inductive SalaryBand where
  | below7L
  | mid7to12L
  | above12L
deriving DecidableEq, Repr

/-- salaryBandOf embeds the band selection of
`ApiCTCLevelDistributionReportView.get` (views.py lines 1287-1295):
`ctc < 700000`, `elif ctc <= 1200000` (inclusive upper bound), else above. -/
def salaryBandOf (ctc : ℚ) : SalaryBand :=
  if ctc < 700000 then SalaryBand.below7L
  else if ctc ≤ 1200000 then SalaryBand.mid7to12L
  else SalaryBand.above12L

/-- empSalaryBand is the per-employee band of the distribution report: the
band of the most recent CTC amount, zero when the owner has no CTC row
(views.py lines 1275-1295). -/
def empSalaryBand (rows : List EmpCTCRow) : SalaryBand :=
  salaryBandOf (empCTCAmount (latestCTC rows))

/-- C6: the distribution report puts the owner's most recent compensation
amount in the lowest band when it is `< 700000`, in the middle band when it
is in `[700000, 1200000]` (inclusive upper bound), and in the highest band
when it is `> 1200000`; an owner with no CTC row gets amount 0 and the
lowest band; 900000 lands in the middle band; and the row the report uses is
a most recent one: it belongs to the input and sorts no later than every
input row (views.py lines 1275-1305). -/
theorem salary_band_assignment (rows : List EmpCTCRow) :
    (empCTCAmount (latestCTC rows) < 700000 → empSalaryBand rows = SalaryBand.below7L)
    ∧ (700000 ≤ empCTCAmount (latestCTC rows) → empCTCAmount (latestCTC rows) ≤ 1200000 →
        empSalaryBand rows = SalaryBand.mid7to12L)
    ∧ (1200000 < empCTCAmount (latestCTC rows) → empSalaryBand rows = SalaryBand.above12L)
    ∧ (rows = [] → empCTCAmount (latestCTC rows) = 0 ∧ empSalaryBand rows = SalaryBand.below7L)
    ∧ salaryBandOf 900000 = SalaryBand.mid7to12L
    ∧ (∀ m, latestCTC rows = some m → m ∈ rows ∧ ∀ r ∈ rows, timelineRel m r) := by
  refine ⟨?_, ?_, ?_, ?_, by decide, ?_⟩
  · intro h
    unfold empSalaryBand salaryBandOf
    rw [if_pos h]
  · intro h1 h2
    unfold empSalaryBand salaryBandOf
    rw [if_neg (not_lt.mpr h1), if_pos h2]
  · intro h
    unfold empSalaryBand salaryBandOf
    rw [if_neg (not_lt.mpr (by linarith)), if_neg (not_le.mpr h)]
  · intro h
    subst h
    exact ⟨rfl, by decide⟩
  · intro m hm
    have hs : List.Sorted timelineRel (timelineSorted rows) :=
      List.sorted_insertionSort timelineRel rows
    have hperm : List.Perm (timelineSorted rows) rows :=
      List.perm_insertionSort timelineRel rows
    cases hst : timelineSorted rows with
    | nil =>
      rw [latestCTC, hst] at hm
      simp at hm
    | cons x tl =>
      rw [latestCTC, hst] at hm
      simp only [List.head?_cons, Option.some.injEq] at hm
      subst hm
      constructor
      · exact hperm.mem_iff.mp (by rw [hst]; exact List.mem_cons_self _ _)
      · intro r hr
        have hr2 : r ∈ timelineSorted rows := hperm.mem_iff.mpr hr
        rw [hst] at hr2
        rcases List.mem_cons.mp hr2 with h | h
        · rw [h]
          exact timelineRel_refl _
        · rw [hst] at hs
          exact (List.pairwise_cons.mp hs).1 r h

/-- Witness for C6: a single CTC row of amount 900000 is placed in the
middle band. -/
theorem salary_band_assignment_witness :
    empSalaryBand [⟨1, ⟨2024, 4, 1⟩, none, 900000⟩] = SalaryBand.mid7to12L :=
  (salary_band_assignment [⟨1, ⟨2024, 4, 1⟩, none, 900000⟩]).2.1
    (by decide) (by decide)

/-- C8: band comparisons are drift-free for monetary amounts.  Every stored
amount is a whole number of cents (`DecimalField` with 2 decimal places,
`100 * a = c` for an integer `c`).  The report compares `float(ctc_amt)`
(views.py line 1283); any approximation `q` of `a` whose error is below half
a cent and which is exact at the two integer thresholds — both guaranteed
for IEEE double conversion of amounts within the 12-digit decimal field,
whose absolute conversion error is below 2e-6 and which represents the
integers 700000 and 1200000 exactly — selects the same band as the exact
decimal amount, so the float detour never changes a band assignment. -/
theorem band_comparison_no_float_drift (c : ℤ) (a q : ℚ)
    (hcents : 100 * a = (c : ℚ))
    (happrox : |q - a| < 1 / 200)
    (hth1 : a = 700000 → q = a)
    (hth2 : a = 1200000 → q = a) :
    salaryBandOf q = salaryBandOf a := by
  rw [abs_sub_lt_iff] at happrox
  obtain ⟨h1, h2⟩ := happrox
  unfold salaryBandOf
  rcases lt_trichotomy c 70000000 with hc | hc | hc
  · have hcq : (c : ℚ) ≤ 69999999 := by exact_mod_cast (by omega : c ≤ (69999999 : ℤ))
    rw [if_pos (by linarith : q < 700000), if_pos (by linarith : a < 700000)]
  · have hcq : (c : ℚ) = 70000000 := by exact_mod_cast hc
    rw [hth1 (by linarith)]
  · have hcq : (70000001 : ℚ) ≤ (c : ℚ) := by
      exact_mod_cast (by omega : (70000001 : ℤ) ≤ c)
    rw [if_neg (not_lt.mpr (by linarith : (700000 : ℚ) ≤ q)),
      if_neg (not_lt.mpr (by linarith : (700000 : ℚ) ≤ a))]
    rcases lt_trichotomy c 120000000 with hd | hd | hd
    · have hdq : (c : ℚ) ≤ 119999999 := by
        exact_mod_cast (by omega : c ≤ (119999999 : ℤ))
      rw [if_pos (by linarith : q ≤ 1200000), if_pos (by linarith : a ≤ 1200000)]
    · have hdq : (c : ℚ) = 120000000 := by exact_mod_cast hd
      rw [hth2 (by linarith)]
    · have hdq : (120000001 : ℚ) ≤ (c : ℚ) := by
        exact_mod_cast (by omega : (120000001 : ℤ) ≤ c)
      rw [if_neg (not_le.mpr (by linarith : (1200000 : ℚ) < q)),
        if_neg (not_le.mpr (by linarith : (1200000 : ℚ) < a))]

/-- Witness for C8: the exact amount 900000.00 and a perturbed reading
900000 + 1/1000000 (a simulated conversion error) land in the same band. -/
theorem band_comparison_no_float_drift_witness :
    salaryBandOf (900000 + 1 / 1000000) = salaryBandOf 900000 :=
  band_comparison_no_float_drift 90000000 900000 (900000 + 1 / 1000000)
    (by norm_num) (by rw [abs_sub_lt_iff]; norm_num)
    (fun h => absurd h (by norm_num)) (fun h => absurd h (by norm_num))

/-- EmpStatus models the `status` choices of the `Employee` model
(models.py lines 9-12). -/
inductive EmpStatus where
  | active
  | exited
deriving DecidableEq, Repr

/-- Employee models the managed `Employee` row (models.py), restricted to
the fields `exit_employee` reads and writes. -/
structure Employee where
  start_date : Date
  end_date : Option Date
  status : EmpStatus
deriving DecidableEq, Repr

/-- ExitError names the two `ValidationError` messages `exit_employee` can
raise and the HTTP 400 of the exit endpoint. -/
inductive ExitError where
  | alreadyExited
  | endBeforeStart
deriving DecidableEq, Repr

/-- models_exit_employee embeds `Employee.exit_employee` (models.py lines
61-78) with the end date already parsed: refuse when the employee is
already exited, refuse an end date before the start date, otherwise set
status `exited` and the end date and save. -/
def models_exit_employee (emp : Employee) (endDate : Date) : Except ExitError Employee :=
  if emp.status = EmpStatus.exited then Except.error ExitError.alreadyExited
  else if dateLT endDate emp.start_date then Except.error ExitError.endBeforeStart
  else Except.ok { emp with status := EmpStatus.exited, end_date := some endDate }

/-- apiEmployeeExitPost embeds `ApiEmployeeExitView.post` (views.py lines
1360-1381) after parsing: the mirror row's `start_date` is non-nullable and
a date object is always truthy, so the only guard is
`parsed_end < employee.start_date`; on success the handler assigns
`employee.end_date = parsed_end` and saves, with no check that an end date
is already present. -/
def apiEmployeeExitPost (emp : EmpMasterMirror) (endDate : Date) :
    Except ExitError EmpMasterMirror :=
  if dateLT endDate emp.start_date then Except.error ExitError.endBeforeStart
  else Except.ok { emp with end_date := some endDate }

/-- Counterexample to C9: an employee of the mirror table who already
exited (end date 2024-01-31 present) is accepted again by the exit
endpoint, which overwrites the end date with 2024-06-30 — the exit
operation does set `end_date` a second time (views.py lines 1360-1381 have
no already-exited guard). -/
theorem exit_sets_end_date_again :
    apiEmployeeExitPost ⟨⟨2020, 1, 1⟩, some ⟨2024, 1, 31⟩⟩ ⟨2024, 6, 30⟩
        = Except.ok ⟨⟨2020, 1, 1⟩, some ⟨2024, 6, 30⟩⟩
    ∧ (⟨⟨2020, 1, 1⟩, some ⟨2024, 1, 31⟩⟩ : EmpMasterMirror).end_date ≠ none
    ∧ some (⟨2024, 6, 30⟩ : Date) ≠ some (⟨2024, 1, 31⟩ : Date) :=
  ⟨rfl, by decide, by decide⟩

/-- C9 as amended: the model method `Employee.exit_employee` is
one-directional — it errors once the status is `exited` and a success sets
status from `active` to `exited` with the end date — while the mirror-based
exit endpoint validates only that the end date is not before the start date
and (re)assigns `end_date` unconditionally, even when one is already
present. -/
theorem exit_transition_amended (emp : Employee) (m : EmpMasterMirror) (endDate : Date) :
    (emp.status = EmpStatus.exited →
      models_exit_employee emp endDate = Except.error ExitError.alreadyExited)
    ∧ (∀ e2, models_exit_employee emp endDate = Except.ok e2 →
        emp.status = EmpStatus.active ∧ e2.status = EmpStatus.exited ∧
          e2.end_date = some endDate)
    ∧ (¬ dateLT endDate m.start_date →
        apiEmployeeExitPost m endDate = Except.ok { m with end_date := some endDate }) := by
  refine ⟨?_, ?_, ?_⟩
  · intro h
    simp [models_exit_employee, h]
  · intro e2 he
    unfold models_exit_employee at he
    split at he
    · exact absurd he (by simp)
    · split at he
      · exact absurd he (by simp)
      · have hstat : emp.status = EmpStatus.active := by
          rcases hst : emp.status with _ | _
          · rfl
          · rename_i hne _
            exact absurd hst hne
        have he2 : e2 = { emp with status := EmpStatus.exited, end_date := some endDate } := by
          injection he with h2
          exact h2.symm
        rw [he2]
        exact ⟨hstat, rfl, rfl⟩
  · intro h
    simp [apiEmployeeExitPost, h]

/-- Witness for the amended C9: an already-exited employee is refused by the
model method. -/
theorem exit_transition_amended_witness :
    models_exit_employee ⟨⟨2021, 2, 20⟩, some ⟨2025, 1, 31⟩, EmpStatus.exited⟩ ⟨2025, 6, 30⟩
        = Except.error ExitError.alreadyExited :=
  (exit_transition_amended ⟨⟨2021, 2, 20⟩, some ⟨2025, 1, 31⟩, EmpStatus.exited⟩
      ⟨⟨2020, 1, 1⟩, none⟩ ⟨2025, 6, 30⟩).1 rfl

end HRBackend
